import Mathlib

/-!
Shallow embedding of the gearbox library (gearbox.h / gearbox.cpp).

A gear is a node in a tree driven by ticks. The scalar part of a gear
(fields of the C++ class Base_Gear) is the structure `Base_Gear` below;
the tree part (the intrusive `driven` / `next` pointers) is the
inductive `GearT`, whose `driven` field is a list of child gears.

All fields have C++ type `unsigned short int`; they are modelled as
`Nat`, with a reduction modulo `ushortMod = 2 ^ 16` applied wherever the
C++ code stores a wider intermediate value into a field.

Handler calls (the virtual hooks on_engaged, on_tick, on_rotation,
on_disengaged) are modelled as an event trace: every operation returns,
next to the updated gear, the list of hook invocations it performed, in
order. Each event records the value that `get_phase()` returns while the
handler runs (the `phase` field at the moment of the call), so that
claims about what a handler observes can be stated.
-/

namespace Gearbox

/-- Machine modulus of the C++ type `unsigned short int` (16 bits). -/
def ushortMod : Nat := 65536

/-- The four states of `enum Gear_State` in gearbox.h. -/
inductive Gear_State where
  | Disengaged
  | Engaging
  | Engaged
  | Disengaging
deriving DecidableEq

/-- Which virtual hook a trace event stands for. -/
inductive Hook where
  | engaged
  | tick
  | rotation
  | disengaged
deriving DecidableEq

/-- One hook invocation: which hook fired, and the value `get_phase()`
returns inside the handler (the `phase` field at the moment of the call). -/
structure Ev where
  hook : Hook
  seen : Nat
deriving DecidableEq

/-- The scalar fields of the C++ class `Base_Gear`. -/
structure Base_Gear where
  state : Gear_State
  ratio : Nat
  step : Nat
  phase : Nat
  priority : Nat
deriving DecidableEq

/-- The constructor `Base_Gear::Base_Gear(phase, step)`: state Engaged,
ratio 1, a zero step coerced to 1, priority 0. -/
def Base_Gear.init (phase step : Nat) : Base_Gear :=
  { state := .Engaged
    ratio := 1
    step := if step % ushortMod > 0 then step % ushortMod else 1
    phase := phase % ushortMod
    priority := 0 }

/-- The parameter-assignment part of `Base_Gear::connect` (gearbox.cpp
lines 32-35): ratio, phase and priority are stored verbatim, a zero step
is coerced to 1. Note the source does NOT coerce a zero ratio. -/
def Base_Gear.connect_params (g : Base_Gear) (ratio phase step priority : Nat) :
    Base_Gear :=
  { g with
    ratio := ratio % ushortMod
    phase := phase % ushortMod
    step := if step % ushortMod > 0 then step % ushortMod else 1
    priority := priority % ushortMod }

/-- `Base_Gear::get_phase`. -/
def Base_Gear.get_phase (g : Base_Gear) : Nat := g.phase

/-- `Base_Gear::engage(bool)`: pure state-field transition, calls no hook
(the returned trace is empty because the source body contains no handler
call site). -/
def Base_Gear.engage (g : Base_Gear) (engaged : Bool) : Base_Gear × List Ev :=
  if !engaged then
    if g.state = .Engaged ∨ g.state = .Engaging then
      ({ g with state := .Disengaging }, [])
    else (g, [])
  else
    if g.state = .Disengaged then ({ g with state := .Engaging }, [])
    else if g.state = .Disengaging then ({ g with state := .Engaged }, [])
    else (g, [])

/-- `Base_Gear::delay_engagement`: `if (state == Engaged) state = Engaging;`. -/
def Base_Gear.delay_engagement (g : Base_Gear) : Base_Gear :=
  if g.state = .Engaged then { g with state := .Engaging } else g

/-- The scalar action of `Base_Gear::tick` (gearbox.cpp lines 92-135),
without the propagation to driven gears. In the rotation-completing
branch the three `if` blocks run in order, each reading the state left by
the previous one, and the wraparound store to `phase` happens after all
hooks have run; in the other branch `on_tick` or `on_disengaged` runs and
then `phase += step`. Every event records the `phase` field at the moment
the hook is called, which in both branches is still the pre-tick value. -/
def Base_Gear.tick (g : Base_Gear) : Base_Gear × List Ev :=
  if g.ratio ≤ g.phase + g.step then
    let s1 : Gear_State × List Ev :=
      if g.state = .Engaging then (.Engaged, [⟨.engaged, g.phase⟩])
      else (g.state, [])
    let e2 : List Ev :=
      if s1.1 = .Engaged then [⟨.tick, g.phase⟩, ⟨.rotation, g.phase⟩] else []
    let s3 : Gear_State × List Ev :=
      if s1.1 = .Disengaging then (.Disengaged, [⟨.disengaged, g.phase⟩])
      else (s1.1, [])
    ({ g with state := s3.1, phase := (g.phase + g.step - g.ratio) % ushortMod },
      s1.2 ++ e2 ++ s3.2)
  else
    if g.state = .Engaged then
      ({ g with phase := (g.phase + g.step) % ushortMod }, [⟨.tick, g.phase⟩])
    else if g.state = .Disengaging then
      ({ g with state := .Disengaged, phase := (g.phase + g.step) % ushortMod },
        [⟨.disengaged, g.phase⟩])
    else
      ({ g with phase := (g.phase + g.step) % ushortMod }, [])

/-- Iterated `tick` on a single gear, accumulating the event trace. -/
def Base_Gear.ticks (g : Base_Gear) : Nat → Base_Gear × List Ev
  | 0 => (g, [])
  | n + 1 =>
    let t := g.tick
    let r := t.1.ticks n
    (r.1, t.2 ++ r.2)

/-- Number of `on_rotation` firings in a trace (what `Counter::on_rotation`
accumulates into `total`). -/
def rot_count (evs : List Ev) : Nat :=
  evs.countP (fun e => e.hook == Hook.rotation)

/-- A gear together with the list of gears it drives (the intrusive
`driven` / `next` linked list of the C++ class, as an explicit list,
kept in sibling order). Each node carries a numeric identifier so that
events of different gears can be told apart in a trace. -/
inductive GearT where
  | node (gid : Nat) (scalar : Base_Gear) (driven : List GearT)

/-- Numeric identifier of the root gear of a tree. -/
def GearT.gid : GearT → Nat
  | .node i _ _ => i

/-- Scalar fields of the root gear of a tree. -/
def GearT.scalar : GearT → Base_Gear
  | .node _ g _ => g

/-- List of gears driven by the root gear of a tree. -/
def GearT.driven : GearT → List GearT
  | .node _ _ ds => ds

/-- Priority of the root gear of a tree. -/
def GearT.prio (t : GearT) : Nat := t.scalar.priority

mutual

/-- `Base_Gear::tick` on a whole tree: the scalar action of the root, and,
only when the root completes a rotation, one `tick` of every driven gear
in list order (the `while (g != nullptr) { g->tick(); g = g->next; }` loop
of gearbox.cpp lines 114-119). Events are tagged with the gear id. -/
def GearT.tickT : GearT → GearT × List (Nat × Ev)
  | .node i g ds =>
    if g.ratio ≤ g.phase + g.step then
      let t := g.tick
      let r := GearT.tickForest ds
      (.node i t.1 r.1, t.2.map (fun e => (i, e)) ++ r.2)
    else
      let t := g.tick
      (.node i t.1 ds, t.2.map (fun e => (i, e)))

/-- One `tick` of every gear of a forest, in list order, concatenating
the traces. -/
def GearT.tickForest : List GearT → List GearT × List (Nat × Ev)
  | [] => ([], [])
  | c :: rest =>
    let tc := c.tickT
    let tr := GearT.tickForest rest
    (tc.1 :: tr.1, tc.2 ++ tr.2)

end

/-- The insertion loop of `Base_Gear::connect` (gearbox.cpp lines 41-47):
walk past every gear whose priority is less than or equal to the priority
of the new child, then splice the child in. -/
def insert_run (c : GearT) : List GearT → List GearT
  | [] => [c]
  | n :: rest =>
    if n.prio ≤ c.prio then n :: insert_run c rest else c :: n :: rest

/-- The list-insertion part of `Base_Gear::connect` (gearbox.cpp lines
37-58): if the driven list is empty or its head has a strictly larger
priority, the child becomes the new head; otherwise the child is spliced
in after the last gear of the leading run of priorities less than or
equal to its own. (The extra traversal of lines 48-52 of the source reads
the list without modifying it and is omitted.) -/
def insert_driven (c : GearT) (driven : List GearT) : List GearT :=
  match driven with
  | [] => [c]
  | g :: rest =>
    if g.prio ≤ c.prio then g :: insert_run c rest else c :: g :: rest

/-- Full `Base_Gear::connect`: assign the parameters of the child, then
insert it into the driven list of the parent. -/
def GearT.connect (parent : GearT) (child : GearT)
    (ratio phase step priority : Nat) : GearT :=
  match parent, child with
  | .node i g ds, .node ci cg cds =>
    .node i g
      (insert_driven (.node ci (cg.connect_params ratio phase step priority) cds) ds)

/-- An external stimulus applied to a single gear: an `engage(b)` call or
a `tick()` call. -/
inductive Cmd where
  | eng (b : Bool)
  | tk
deriving DecidableEq

/-- Apply one stimulus to a gear. -/
def step_cmd (g : Base_Gear) : Cmd → Base_Gear × List Ev
  | .eng b => g.engage b
  | .tk => g.tick

/-- Apply a sequence of stimuli to a gear, accumulating the trace. -/
def run (g : Base_Gear) : List Cmd → Base_Gear × List Ev
  | [] => (g, [])
  | c :: cs =>
    let s := step_cmd g c
    let r := run s.1 cs
    (r.1, s.2 ++ r.2)


/-- Unfolding lemma: one step of `ticks`. -/
lemma ticks_succ (g : Base_Gear) (n : Nat) :
    g.ticks (n + 1) = ((g.tick.1.ticks n).1, g.tick.2 ++ (g.tick.1.ticks n).2) := rfl

/-- A rotation-completing tick of an engaged gear: state is unchanged, the
phase wraps, and exactly `on_tick` then `on_rotation` fire, both observing
the pre-tick phase. -/
lemma tick_engaged_wrap (g : Base_Gear) (hs : g.state = .Engaged)
    (hw : g.ratio ≤ g.phase + g.step) :
    g.tick = ({ g with phase := (g.phase + g.step - g.ratio) % ushortMod },
      [⟨.tick, g.phase⟩, ⟨.rotation, g.phase⟩]) := by
  obtain ⟨st, r, s, p, pr⟩ := g
  cases hs
  simp [Base_Gear.tick, hw]

/-- A non-completing tick of an engaged gear: state is unchanged, the phase
advances by `step`, and exactly `on_tick` fires, observing the pre-tick
phase. -/
lemma tick_engaged_nowrap (g : Base_Gear) (hs : g.state = .Engaged)
    (hw : ¬ g.ratio ≤ g.phase + g.step) :
    g.tick = ({ g with phase := (g.phase + g.step) % ushortMod },
      [⟨.tick, g.phase⟩]) := by
  obtain ⟨st, r, s, p, pr⟩ := g
  cases hs
  simp [Base_Gear.tick, hw]

/-- Counting rotation events distributes over trace concatenation. -/
lemma rot_count_append (a b : List Ev) :
    rot_count (a ++ b) = rot_count a + rot_count b := by
  simp [rot_count, List.countP_append]

/-- The trace of a completing tick of an engaged gear holds one rotation. -/
lemma rot_count_tick_rot (p : Nat) :
    rot_count [⟨.tick, p⟩, ⟨.rotation, p⟩] = 1 := rfl

/-- The trace of a non-completing tick of an engaged gear holds no rotation. -/
lemma rot_count_tick (p : Nat) : rot_count [⟨.tick, p⟩] = 0 := rfl

/-- Phase arithmetic and rotation count of an engaged gear under iterated
ticks, in the documented parameter ranges (`phase < ratio`, `step ≤ ratio`):
the phase field follows the remainder of `phase + N * step` by `ratio` and
the number of fired rotations is the quotient. -/
lemma ticks_engaged_formula (N : Nat) :
    ∀ g : Base_Gear, g.state = .Engaged → 0 < g.ratio → g.step ≤ g.ratio →
      g.phase < g.ratio → g.ratio < ushortMod →
      (g.ticks N).1 = { g with phase := (g.phase + N * g.step) % g.ratio } ∧
      rot_count (g.ticks N).2 = (g.phase + N * g.step) / g.ratio := by
  induction N with
  | zero =>
    intro g hs hr hsr hpr hru
    refine ⟨?_, ?_⟩
    · show g = _
      simp [Nat.mod_eq_of_lt hpr]
    · show rot_count [] = _
      simp [rot_count, Nat.div_eq_of_lt hpr]
  | succ N ih =>
    intro g hs hr hsr hpr hru
    obtain ⟨st, r, s, p, pr⟩ := g
    cases hs
    simp only at hr hsr hpr hru ⊢
    by_cases hw : r ≤ p + s
    · have ht := tick_engaged_wrap ⟨.Engaged, r, s, p, pr⟩ rfl hw
      have hlt : p + s - r < ushortMod := by omega
      have hmod : (p + s - r) % ushortMod = p + s - r := Nat.mod_eq_of_lt hlt
      simp only at ht
      rw [hmod] at ht
      have ih' := ih ⟨.Engaged, r, s, p + s - r, pr⟩ rfl hr hsr
        (show p + s - r < r by omega) hru
      simp only at ih'
      have key : p + (N + 1) * s = (p + s - r + N * s) + r := by
        have hmul : (N + 1) * s = N * s + s := Nat.succ_mul N s
        omega
      rw [ticks_succ, ht]
      refine ⟨?_, ?_⟩
      · simp only
        rw [ih'.1, key, Nat.add_mod_right]
      · simp only
        rw [rot_count_append, ih'.2, key, Nat.add_div_right _ hr, rot_count_tick_rot]
        omega
    · have ht := tick_engaged_nowrap ⟨.Engaged, r, s, p, pr⟩ rfl hw
      have hlt : p + s < ushortMod := by omega
      have hmod : (p + s) % ushortMod = p + s := Nat.mod_eq_of_lt hlt
      simp only at ht
      rw [hmod] at ht
      have ih' := ih ⟨.Engaged, r, s, p + s, pr⟩ rfl hr hsr
        (show p + s < r by omega) hru
      simp only at ih'
      have key : p + (N + 1) * s = (p + s + N * s) := by
        have hmul : (N + 1) * s = N * s + s := Nat.succ_mul N s
        omega
      rw [ticks_succ, ht]
      refine ⟨?_, ?_⟩
      · simp only
        rw [ih'.1, key]
      · simp only
        rw [rot_count_append, ih'.2, key, rot_count_tick]
        omega

/-- Ticking never changes the ratio, step and priority fields. -/
lemma tick_frame (g : Base_Gear) :
    g.tick.1.ratio = g.ratio ∧ g.tick.1.step = g.step ∧
    g.tick.1.priority = g.priority := by
  obtain ⟨st, r, s, p, pr⟩ := g
  cases st <;> by_cases hw : r ≤ p + s <;> simp [Base_Gear.tick, hw]

/-- Engaging or disengaging changes at most the state field and calls no
hook. -/
lemma engage_frame_fields (g : Base_Gear) (b : Bool) :
    (g.engage b).1.ratio = g.ratio ∧ (g.engage b).1.step = g.step ∧
    (g.engage b).1.phase = g.phase ∧ (g.engage b).1.priority = g.priority ∧
    (g.engage b).2 = [] := by
  obtain ⟨st, r, s, p, pr⟩ := g
  cases st <;> cases b <;> simp [Base_Gear.engage]

/-- C1 (corrected): for a gear that is Engaged and whose connection
parameters lie in the documented ranges (`phase < ratio`,
`step ≤ ratio`), the cumulative number of `on_rotation` firings after N
ticks equals `(phase0 + N * step) / ratio` (floor division), and when
`step` divides `ratio` evenly, each further `ratio / step` ticks complete
exactly one more rotation. -/
theorem rotation_count_formula (g : Base_Gear) (N : Nat)
    (hs : g.state = .Engaged) (hr : 0 < g.ratio) (hsr : g.step ≤ g.ratio)
    (hpr : g.phase < g.ratio) (hru : g.ratio < ushortMod) :
    rot_count (g.ticks N).2 = (g.phase + N * g.step) / g.ratio ∧
    (g.step ∣ g.ratio →
      rot_count (g.ticks (N + g.ratio / g.step)).2 =
        rot_count (g.ticks N).2 + 1) := by
  have main : ∀ M, rot_count (g.ticks M).2 = (g.phase + M * g.step) / g.ratio :=
    fun M => (ticks_engaged_formula M g hs hr hsr hpr hru).2
  refine ⟨main N, fun hdvd => ?_⟩
  rw [main, main]
  have hmul : (N + g.ratio / g.step) * g.step = N * g.step + g.ratio := by
    rw [Nat.add_mul, Nat.div_mul_cancel hdvd]
  rw [hmul, ← Nat.add_assoc, Nat.add_div_right _ hr]

/-- Witness for `rotation_count_formula`: a gear connected with ratio 4,
phase 0, step 1; nine ticks fire two rotations, and four more ticks fire
exactly one more. -/
theorem rotation_count_formula_witness :
    rot_count ((Base_Gear.mk .Engaged 4 1 0 0).ticks 9).2 =
      ((Base_Gear.mk .Engaged 4 1 0 0).phase +
        9 * (Base_Gear.mk .Engaged 4 1 0 0).step) /
        (Base_Gear.mk .Engaged 4 1 0 0).ratio ∧
    ((Base_Gear.mk .Engaged 4 1 0 0).step ∣ (Base_Gear.mk .Engaged 4 1 0 0).ratio →
      rot_count ((Base_Gear.mk .Engaged 4 1 0 0).ticks
          (9 + (Base_Gear.mk .Engaged 4 1 0 0).ratio /
            (Base_Gear.mk .Engaged 4 1 0 0).step)).2 =
        rot_count ((Base_Gear.mk .Engaged 4 1 0 0).ticks 9).2 + 1) :=
  rotation_count_formula ⟨.Engaged, 4, 1, 0, 0⟩ 9 rfl (by decide) (by decide)
    (by decide) (by decide)

/-- Counterexample to C1 as stated: a gear connected with phase0 = 10,
ratio = 4, step = 1 fires exactly one rotation on its first tick, while
the claimed formula gives `(10 + 1 * 1) / 4 = 2`; the formula fails when
the connection phase lies outside the documented range `phase < ratio`. -/
theorem rotation_count_cex :
    rot_count (((Base_Gear.init 0 1).connect_params 4 10 1 0).ticks 1).2 ≠
      (10 + 1 * 1) / 4 := by decide

/-- Counterexample to C2 as stated: connecting with a zero ratio argument
leaves the ratio field equal to 0, so `ratio ≥ 1` fails right after
`connect()`; the claimed coercion of a zero ratio to 1 is not in the code. -/
theorem connect_zero_ratio_cex :
    ¬ 1 ≤ ((Base_Gear.init 0 1).connect_params 0 0 1 0).ratio := by decide

/-- C2 (corrected): `connect()` coerces a zero step argument to 1, so
`step ≥ 1` holds after connection and is preserved by every later tick or
engage call; the ratio argument is stored verbatim, so `ratio ≥ 1` holds
after connection exactly when the 16-bit ratio argument is nonzero. -/
theorem connect_coercion (g : Base_Gear) (ratio phase step priority : Nat) :
    1 ≤ (g.connect_params ratio phase step priority).step ∧
    (1 ≤ (g.connect_params ratio phase step priority).ratio ↔
      ratio % ushortMod ≠ 0) ∧
    (∀ g' : Base_Gear, g'.tick.1.ratio = g'.ratio ∧ g'.tick.1.step = g'.step) ∧
    (∀ (g' : Base_Gear) (b : Bool),
      (g'.engage b).1.ratio = g'.ratio ∧ (g'.engage b).1.step = g'.step) := by
  refine ⟨?_, ?_, ?_, ?_⟩
  · simp only [Base_Gear.connect_params]
    split <;> omega
  · simp only [Base_Gear.connect_params]
    omega
  · intro g'
    exact ⟨(tick_frame g').1, (tick_frame g').2.1⟩
  · intro g' b
    exact ⟨(engage_frame_fields g' b).1, (engage_frame_fields g' b).2.1⟩

/-- C3, the code evaluated at the failing input: a rotation-completing
tick (3 + 1 ≥ 4) of an engaged gear with ratio 4, step 1, phase 3 runs
`on_tick` and `on_rotation` with `get_phase()` returning 3, the
pre-increment phase, and not the pre-wrap value `newPhase = 4` that the
claim (and the `get_phase` documentation in gearbox.h) describes. -/
theorem handlers_observe_pre_increment_phase :
    (Base_Gear.mk .Engaged 4 1 3 0).tick.2 = [⟨.tick, 3⟩, ⟨.rotation, 3⟩] := by
  decide

/-- C4: a gear in state Disengaging transitions to Disengaged on the very
next tick — whether or not that tick completes a rotation — and its trace
for that tick is exactly one `on_disengaged` firing. -/
theorem disengaging_next_tick (g : Base_Gear) (h : g.state = .Disengaging) :
    g.tick.1.state = .Disengaged ∧ g.tick.2 = [⟨.disengaged, g.phase⟩] := by
  obtain ⟨st, r, s, p, pr⟩ := g
  cases h
  by_cases hw : r ≤ p + s <;> simp [Base_Gear.tick, hw]

/-- Witness for `disengaging_next_tick`, on a gear with ratio 4, step 1,
phase 0 (a non-completing tick). -/
theorem disengaging_next_tick_witness :
    (Base_Gear.mk .Disengaging 4 1 0 0).tick.1.state = .Disengaged ∧
    (Base_Gear.mk .Disengaging 4 1 0 0).tick.2 = [⟨.disengaged, 0⟩] :=
  disengaging_next_tick ⟨.Disengaging, 4, 1, 0, 0⟩ rfl

/-- C5: `engage(true)` on a Disengaging gear returns it directly to
Engaged; and from Engaged, `engage(false)` followed by `engage(true)`
with no intervening tick restores the gear exactly (so it is Engaged and
its whole future behaviour is as if nothing happened) while firing no
handler at all — in particular `on_disengaged` never fires. -/
theorem engage_abort_disengage (g g' : Base_Gear)
    (h : g.state = .Engaged) (h' : g'.state = .Disengaging) :
    (g'.engage true).1.state = .Engaged ∧
    ((g.engage false).1.engage true).1 = g ∧
    (g.engage false).2 = [] ∧ ((g.engage false).1.engage true).2 = [] := by
  obtain ⟨st, r, s, p, pr⟩ := g
  obtain ⟨st', r', s', p', pr'⟩ := g'
  cases h
  cases h'
  simp [Base_Gear.engage]

/-- Witness for `engage_abort_disengage` on two concrete gears. -/
theorem engage_abort_disengage_witness :
    ((Base_Gear.mk .Disengaging 4 1 2 0).engage true).1.state = .Engaged ∧
    (((Base_Gear.mk .Engaged 4 1 2 0).engage false).1.engage true).1 =
      Base_Gear.mk .Engaged 4 1 2 0 ∧
    ((Base_Gear.mk .Engaged 4 1 2 0).engage false).2 = [] ∧
    (((Base_Gear.mk .Engaged 4 1 2 0).engage false).1.engage true).2 = [] :=
  engage_abort_disengage ⟨.Engaged, 4, 1, 2, 0⟩ ⟨.Disengaging, 4, 1, 2, 0⟩ rfl rfl

/-- C10: `delay_engagement()` sets the state to Engaging when the current
state is Engaged, and in every other state it changes nothing at all. -/
theorem delay_engagement_behavior (g : Base_Gear) :
    (g.state = .Engaged → g.delay_engagement = { g with state := .Engaging }) ∧
    (g.state ≠ .Engaged → g.delay_engagement = g) := by
  constructor <;> intro h <;> simp [Base_Gear.delay_engagement, h]

/-- Witness for `delay_engagement_behavior` in an Engaged and in a
Disengaged gear. -/
theorem delay_engagement_behavior_witness :
    (Base_Gear.mk .Engaged 4 1 0 0).delay_engagement =
      { Base_Gear.mk .Engaged 4 1 0 0 with state := .Engaging } ∧
    (Base_Gear.mk .Disengaged 4 1 0 0).delay_engagement =
      Base_Gear.mk .Disengaged 4 1 0 0 :=
  ⟨(delay_engagement_behavior ⟨.Engaged, 4, 1, 0, 0⟩).1 rfl,
    (delay_engagement_behavior ⟨.Disengaged, 4, 1, 0, 0⟩).2 (by decide)⟩

/-- `Base_Gear::engage` on a tree node: only the scalar state machine of
that gear runs; the driven list is not touched (the source method reads
and writes no pointer). -/
def GearT.engage (t : GearT) (b : Bool) : GearT × List (Nat × Ev) :=
  match t with
  | .node i g ds =>
    let e := g.engage b
    (.node i e.1 ds, e.2.map (fun ev => (i, ev)))

/-- C9: `engage(flag)`, for either flag value and from every state,
modifies at most the state field: it emits no handler call and leaves
phase, ratio, step, priority and the driven list unchanged. -/
theorem engage_frame (t : GearT) (b : Bool) :
    (t.engage b).2 = [] ∧ (t.engage b).1.driven = t.driven ∧
    (t.engage b).1.gid = t.gid ∧
    (t.engage b).1.scalar.ratio = t.scalar.ratio ∧
    (t.engage b).1.scalar.step = t.scalar.step ∧
    (t.engage b).1.scalar.phase = t.scalar.phase ∧
    (t.engage b).1.scalar.priority = t.scalar.priority := by
  obtain ⟨i, g, ds⟩ := t
  have h := engage_frame_fields g b
  simp [GearT.engage, GearT.driven, GearT.gid, GearT.scalar,
    h.1, h.2.1, h.2.2.1, h.2.2.2.1, h.2.2.2.2]

/-- A tick that does not complete a rotation can only fire `on_tick` or
`on_disengaged`, never `on_engaged` or `on_rotation`. -/
lemma tick_nowrap_hooks (g : Base_Gear) (hw : ¬ g.ratio ≤ g.phase + g.step) :
    ∀ e ∈ g.tick.2, e.hook = .tick ∨ e.hook = .disengaged := by
  obtain ⟨st, r, s, p, pr⟩ := g
  cases st <;> simp [Base_Gear.tick, hw]

/-- Unfolding lemma: running a stimulus sequence one command at a time. -/
lemma run_cons (g : Base_Gear) (c : Cmd) (cs : List Cmd) :
    run g (c :: cs) =
      ((run (step_cmd g c).1 cs).1,
        (step_cmd g c).2 ++ (run (step_cmd g c).1 cs).2) := rfl

/-- C8: over every interleaving of engage and tick calls, every
`on_engaged` firing in the trace is produced by a tick command executed
at a gear state whose tick completes a rotation
(`ratio ≤ phase + step`); `engage(true)` alone never fires it. -/
theorem engaged_fires_only_on_rotation (g : Base_Gear) (cs : List Cmd) (e : Ev)
    (he : e ∈ (run g cs).2) (hh : e.hook = .engaged) :
    ∃ pre post, cs = pre ++ Cmd.tk :: post ∧
      (run g pre).1.ratio ≤ (run g pre).1.phase + (run g pre).1.step ∧
      e ∈ (run g pre).1.tick.2 := by
  induction cs generalizing g with
  | nil => simp [run] at he
  | cons c rest ih =>
    rw [run_cons] at he
    rcases List.mem_append.mp he with hl | hr
    · cases c with
      | eng b =>
        rw [show (step_cmd g (.eng b)).2 = (g.engage b).2 from rfl,
          (engage_frame_fields g b).2.2.2.2] at hl
        simp at hl
      | tk =>
        by_cases hw : g.ratio ≤ g.phase + g.step
        · exact ⟨[], rest, rfl, hw, hl⟩
        · rcases tick_nowrap_hooks g hw e hl with h1 | h1 <;> rw [hh] at h1 <;>
            simp at h1
    · obtain ⟨pre, post, hcs, hwrap, hmem⟩ := ih (step_cmd g c).1 hr
      exact ⟨c :: pre, post, by simp [hcs], hwrap, hmem⟩

/-- Witness for `engaged_fires_only_on_rotation`: an Engaging gear with
ratio 1 fires `on_engaged` on its first tick, which completes a rotation. -/
theorem engaged_fires_only_on_rotation_witness :
    ∃ pre post, [Cmd.tk] = pre ++ Cmd.tk :: post ∧
      (run (Base_Gear.mk .Engaging 1 1 0 0) pre).1.ratio ≤
        (run (Base_Gear.mk .Engaging 1 1 0 0) pre).1.phase +
          (run (Base_Gear.mk .Engaging 1 1 0 0) pre).1.step ∧
      Ev.mk .engaged 0 ∈ (run (Base_Gear.mk .Engaging 1 1 0 0) pre).1.tick.2 :=
  engaged_fires_only_on_rotation ⟨.Engaging, 1, 1, 0, 0⟩ [Cmd.tk] ⟨.engaged, 0⟩
    (by decide) rfl

/-- The insertion loop splices the new child exactly after the maximal
leading run of gears of equal-or-lower priority. -/
lemma insert_run_eq (c : GearT) (l : List GearT) :
    insert_run c l =
      l.takeWhile (fun g => decide (g.prio ≤ c.prio)) ++
        c :: l.dropWhile (fun g => decide (g.prio ≤ c.prio)) := by
  induction l with
  | nil => simp [insert_run]
  | cons n rest ih =>
    by_cases h : n.prio ≤ c.prio
    · simp [insert_run, h, List.takeWhile_cons, List.dropWhile_cons, ih]
    · simp [insert_run, h, List.takeWhile_cons, List.dropWhile_cons]

/-- The head special case of the source insertion (empty list or
strictly-larger head priority) agrees with the plain insertion loop. -/
lemma insert_driven_eq_run (c : GearT) (l : List GearT) :
    insert_driven c l = insert_run c l := by
  cases l with
  | nil => rfl
  | cons g rest =>
    by_cases h : g.prio ≤ c.prio <;> simp [insert_driven, insert_run, h]

/-- Everything in the spliced list is the new child or an old element. -/
lemma mem_insert_run (c x : GearT) (l : List GearT)
    (hx : x ∈ insert_run c l) : x = c ∨ x ∈ l := by
  induction l with
  | nil => simpa [insert_run] using hx
  | cons n rest ih =>
    by_cases h : n.prio ≤ c.prio
    · rw [insert_run, if_pos h] at hx
      rcases List.mem_cons.mp hx with rfl | h1
      · right
        exact List.mem_cons_self _ _
      · rcases ih h1 with h2 | h2
        · exact Or.inl h2
        · exact Or.inr (List.mem_cons_of_mem _ h2)
    · rw [insert_run, if_neg h] at hx
      rcases List.mem_cons.mp hx with rfl | h1
      · exact Or.inl rfl
      · exact Or.inr h1

/-- Splicing into a list sorted ascending by priority keeps it sorted. -/
lemma insert_run_sorted (c : GearT) (l : List GearT)
    (hl : l.Pairwise (fun a b => a.prio ≤ b.prio)) :
    (insert_run c l).Pairwise (fun a b => a.prio ≤ b.prio) := by
  induction l with
  | nil =>
    simp [insert_run]
  | cons n rest ih =>
    rcases List.pairwise_cons.mp hl with ⟨hn, hrest⟩
    by_cases h : n.prio ≤ c.prio
    · rw [insert_run, if_pos h]
      refine List.pairwise_cons.mpr ⟨fun x hx => ?_, ih hrest⟩
      rcases mem_insert_run c x rest hx with rfl | hxr
      · exact h
      · exact hn x hxr
    · rw [insert_run, if_neg h]
      refine List.pairwise_cons.mpr ⟨fun x hx => ?_, hl⟩
      rcases List.mem_cons.mp hx with rfl | hxr
      · omega
      · have := hn x hxr
        omega

/-- C6: `connect()` inserts the child after all already-present children
of equal-or-lower priority (stable append-after-equal), which keeps the
driven list sorted ascending by priority. -/
theorem connect_insertion (c : GearT) (l : List GearT) :
    insert_driven c l =
      l.takeWhile (fun g => decide (g.prio ≤ c.prio)) ++
        c :: l.dropWhile (fun g => decide (g.prio ≤ c.prio)) ∧
    (l.Pairwise (fun a b => a.prio ≤ b.prio) →
      (insert_driven c l).Pairwise (fun a b => a.prio ≤ b.prio)) := by
  rw [insert_driven_eq_run]
  exact ⟨insert_run_eq c l, insert_run_sorted c l⟩

/-- Witness for `connect_insertion`: a new child of priority 2 lands after
the existing children of priorities 1, 2, 2. -/
theorem connect_insertion_witness :
    insert_driven (.node 3 (Base_Gear.mk .Engaged 1 1 0 2) [])
        [.node 0 (Base_Gear.mk .Engaged 1 1 0 1) [],
          .node 1 (Base_Gear.mk .Engaged 1 1 0 2) [],
          .node 2 (Base_Gear.mk .Engaged 1 1 0 2) []] =
      ([.node 0 (Base_Gear.mk .Engaged 1 1 0 1) [],
          .node 1 (Base_Gear.mk .Engaged 1 1 0 2) [],
          .node 2 (Base_Gear.mk .Engaged 1 1 0 2) []].takeWhile
            (fun g => decide (g.prio ≤ (GearT.node 3 (Base_Gear.mk .Engaged 1 1 0 2) []).prio))) ++
        (GearT.node 3 (Base_Gear.mk .Engaged 1 1 0 2) []) ::
          ([.node 0 (Base_Gear.mk .Engaged 1 1 0 1) [],
            .node 1 (Base_Gear.mk .Engaged 1 1 0 2) [],
            .node 2 (Base_Gear.mk .Engaged 1 1 0 2) []].dropWhile
              (fun g => decide (g.prio ≤ (GearT.node 3 (Base_Gear.mk .Engaged 1 1 0 2) []).prio))) ∧
    ([GearT.node 0 (Base_Gear.mk .Engaged 1 1 0 1) [],
        .node 1 (Base_Gear.mk .Engaged 1 1 0 2) [],
        .node 2 (Base_Gear.mk .Engaged 1 1 0 2) []].Pairwise
          (fun a b => a.prio ≤ b.prio) →
      (insert_driven (.node 3 (Base_Gear.mk .Engaged 1 1 0 2) [])
          [.node 0 (Base_Gear.mk .Engaged 1 1 0 1) [],
            .node 1 (Base_Gear.mk .Engaged 1 1 0 2) [],
            .node 2 (Base_Gear.mk .Engaged 1 1 0 2) []]).Pairwise
        (fun a b => a.prio ≤ b.prio)) :=
  connect_insertion (.node 3 (Base_Gear.mk .Engaged 1 1 0 2) [])
    [.node 0 (Base_Gear.mk .Engaged 1 1 0 1) [],
      .node 1 (Base_Gear.mk .Engaged 1 1 0 2) [],
      .node 2 (Base_Gear.mk .Engaged 1 1 0 2) []]

/-- The forest tick is one tick of every member in list order, the traces
concatenated in that order. -/
lemma tickForest_eq (l : List GearT) :
    GearT.tickForest l =
      (l.map (fun c => c.tickT.1), (l.map (fun c => c.tickT.2)).flatten) := by
  induction l with
  | nil => simp [GearT.tickForest]
  | cons c rest ih => simp [GearT.tickForest, ih]

/-- C7: a tick that does not complete a rotation of the parent leaves the
children untouched and produces only the parent events; a
rotation-completing tick ticks every child exactly once, in the order of
the (priority-sorted) driven list, with the parent events strictly
before all child events; and the children outcome does not depend on the
parent engagement state. -/
theorem children_tick_order (i : Nat) (g : Base_Gear) (ds : List GearT) :
    (¬ g.ratio ≤ g.phase + g.step →
      GearT.tickT (.node i g ds) =
        (.node i g.tick.1 ds, g.tick.2.map (fun e => (i, e)))) ∧
    (g.ratio ≤ g.phase + g.step →
      GearT.tickT (.node i g ds) =
        (.node i g.tick.1 (ds.map (fun c => c.tickT.1)),
          g.tick.2.map (fun e => (i, e)) ++ (ds.map (fun c => c.tickT.2)).flatten)) ∧
    (∀ st : Gear_State,
      (GearT.tickT (.node i { g with state := st } ds)).1.driven =
        (GearT.tickT (.node i g ds)).1.driven) := by
  refine ⟨fun hw => ?_, fun hw => ?_, fun st => ?_⟩
  · simp [GearT.tickT, hw]
  · simp [GearT.tickT, hw, tickForest_eq]
  · by_cases hw : g.ratio ≤ g.phase + g.step <;>
      simp [GearT.tickT, hw, GearT.driven, tickForest_eq]

/-- Witness for `children_tick_order`: a non-completing tick of an engaged
parent, and a completing tick of a Disengaged parent that still ticks its
child. -/
theorem children_tick_order_witness :
    GearT.tickT (.node 0 (Base_Gear.mk .Engaged 4 1 0 0)
        [.node 1 (Base_Gear.mk .Engaged 1 1 0 0) []]) =
      (.node 0 (Base_Gear.mk .Engaged 4 1 0 0).tick.1
          [.node 1 (Base_Gear.mk .Engaged 1 1 0 0) []],
        (Base_Gear.mk .Engaged 4 1 0 0).tick.2.map (fun e => (0, e))) ∧
    GearT.tickT (.node 0 (Base_Gear.mk .Disengaged 1 1 0 0)
        [.node 1 (Base_Gear.mk .Engaged 1 1 0 0) []]) =
      (.node 0 (Base_Gear.mk .Disengaged 1 1 0 0).tick.1
          ([GearT.node 1 (Base_Gear.mk .Engaged 1 1 0 0) []].map
            (fun c => c.tickT.1)),
        (Base_Gear.mk .Disengaged 1 1 0 0).tick.2.map (fun e => (0, e)) ++
          ([GearT.node 1 (Base_Gear.mk .Engaged 1 1 0 0) []].map
            (fun c => c.tickT.2)).flatten) :=
  ⟨(children_tick_order 0 (Base_Gear.mk .Engaged 4 1 0 0)
      [.node 1 (Base_Gear.mk .Engaged 1 1 0 0) []]).1 (by decide),
    (children_tick_order 0 (Base_Gear.mk .Disengaged 1 1 0 0)
      [.node 1 (Base_Gear.mk .Engaged 1 1 0 0) []]).2.1 (by decide)⟩

end Gearbox
